import Mathlib

/-!
Verification of the simulation core of the physics-web repository.

The development shallowly embeds, over exact rational arithmetic:
- the fixed-timestep game loop of src/core/Engine.ts (clamp, accumulator
  drain, pause/start bookkeeping);
- the generic integrators of src/core/Integrator.ts (euler, rk4,
  semiImplicitEuler), with JavaScript objects modelled as association
  lists from field names to Option values (none models NaN/undefined
  propagation through arithmetic);
- the coordinate transforms of src/core/Viewport.ts;
- gravitationalForce of src/utils/physics.js;
- the two-ball collision response of the elastic-collision scene in
  src/scenes/PlanetaryMotionScene3D.ts.
-/

/-! ## Integrator (src/core/Integrator.ts)

A JavaScript state object is an association list from field names to
numeric values.  A value is modelled as Option of a rational: some q is an
ordinary number, none stands for NaN (or for the undefined produced by
reading an absent property), and every arithmetic operation propagates
none exactly as JavaScript arithmetic propagates NaN. -/

/-- Value of a state field: some q is a number, none models NaN. -/
abbrev Val := Option ℚ

/-- A JavaScript object with numeric fields, as an association list. -/
abbrev StateObject := List (String × Val)

/-- JavaScript addition: NaN absorbs. -/
def vadd : Val → Val → Val
  | some a, some b => some (a + b)
  | _, _ => none

/-- JavaScript multiplication: NaN absorbs. -/
def vmul : Val → Val → Val
  | some a, some b => some (a * b)
  | _, _ => none

/-- JavaScript division: NaN absorbs (only ever used with divisor 6 here). -/
def vdiv : Val → Val → Val
  | some a, some b => some (a / b)
  | _, _ => none

/-- Property read o[k]: the stored value when the key is present, and
undefined (which behaves as NaN in arithmetic, hence none) otherwise. -/
def readKey (o : StateObject) (k : String) : Val :=
  (o.lookup k).getD none

/-- The loop body shared by euler and the three rk4 stage constructions:
iterate over the fields of state; where ks owns the key add value + rate * h,
otherwise copy the field unchanged.  In Integrator.ts this is the
for-in loop with the hasOwnProperty check. -/
def stageAdd : StateObject → StateObject → ℚ → StateObject
  | [], _, _ => []
  | (a, v) :: tl, ks, h =>
    (match ks.lookup a with
     | some r => (a, vadd v (vmul r (some h)))
     | none => (a, v)) :: stageAdd tl ks h

/-- Final rk4 combination loop: where k1 owns the key the new value is
state[key] + ((k1[key] + 2*k2[key] + 2*k3[key] + k4[key]) * dt) / 6, with
absent k2/k3/k4 reads giving undefined (hence NaN); otherwise the field is
copied unchanged. -/
def rk4Combine : StateObject → StateObject → StateObject → StateObject → StateObject → ℚ → StateObject
  | [], _, _, _, _, _ => []
  | (a, v) :: tl, k1, k2, k3, k4, dt =>
    (match k1.lookup a with
     | some r1 =>
       (a, vadd v (vdiv (vmul (vadd (vadd (vadd r1 (vmul (some 2) (readKey k2 a)))
         (vmul (some 2) (readKey k3 a))) (readKey k4 a)) (some dt)) (some 6)))
     | none => (a, v)) :: rk4Combine tl k1 k2 k3 k4 dt

/-- Integrator.euler: rates := derivatives(state, t); for each field of
state, add rates[key] * dt when rates owns the key, else copy. -/
def Integrator.euler (state : StateObject) (t dt : ℚ)
    (derivatives : StateObject → ℚ → StateObject) : StateObject :=
  stageAdd state (derivatives state t) dt

/-- Intermediate rk4 state state2 = state + k1 * dt * 0.5 (fieldwise, with
the hasOwnProperty pass-through). -/
def rk4State2 (state : StateObject) (t dt : ℚ)
    (derivatives : StateObject → ℚ → StateObject) : StateObject :=
  stageAdd state (derivatives state t) (dt * (1 / 2))

/-- Intermediate rk4 state state3 = state + k2 * dt * 0.5. -/
def rk4State3 (state : StateObject) (t dt : ℚ)
    (derivatives : StateObject → ℚ → StateObject) : StateObject :=
  stageAdd state (derivatives (rk4State2 state t dt derivatives) (t + dt * (1 / 2))) (dt * (1 / 2))

/-- Intermediate rk4 state state4 = state + k3 * dt. -/
def rk4State4 (state : StateObject) (t dt : ℚ)
    (derivatives : StateObject → ℚ → StateObject) : StateObject :=
  stageAdd state (derivatives (rk4State3 state t dt derivatives) (t + dt * (1 / 2))) dt

/-- Integrator.rk4: four derivative evaluations and the weighted
combination, exactly as in Integrator.ts. -/
def Integrator.rk4 (state : StateObject) (t dt : ℚ)
    (derivatives : StateObject → ℚ → StateObject) : StateObject :=
  let k1 := derivatives state t
  let k2 := derivatives (rk4State2 state t dt derivatives) (t + dt * (1 / 2))
  let k3 := derivatives (rk4State3 state t dt derivatives) (t + dt * (1 / 2))
  let k4 := derivatives (rk4State4 state t dt derivatives) (t + dt)
  rk4Combine state k1 k2 k3 k4 dt

/-- Result record of the semi-implicit Euler step. -/
structure SemiImplicitResult where
  pos : ℚ
  vel : ℚ
  deriving DecidableEq

/-- Integrator.semiImplicitEuler: acc := a(pos, vel, t); newVel := vel + acc * dt;
newPos := pos + newVel * dt. -/
def Integrator.semiImplicitEuler (pos vel t dt : ℚ)
    (accelerationFunc : ℚ → ℚ → ℚ → ℚ) : SemiImplicitResult :=
  let acc := accelerationFunc pos vel t
  let newVel := vel + acc * dt
  let newPos := pos + newVel * dt
  { pos := newPos, vel := newVel }

/-! ## Viewport (src/core/Viewport.ts) -/

/-- Viewport configuration: scale in pixels per meter, physical center,
and the cached screen center. -/
structure Viewport where
  scale : ℚ
  centerX : ℚ
  centerY : ℚ
  screenCenterX : ℚ
  screenCenterY : ℚ

/-- Viewport.worldToScreen with the vertical-axis flip. -/
def Viewport.worldToScreen (v : Viewport) (x y : ℚ) : ℚ × ℚ :=
  (v.screenCenterX + (x - v.centerX) * v.scale,
   v.screenCenterY - (y - v.centerY) * v.scale)

/-- Viewport.screenToWorld with the vertical-axis flip. -/
def Viewport.screenToWorld (v : Viewport) (sx sy : ℚ) : ℚ × ℚ :=
  (v.centerX + (sx - v.screenCenterX) / v.scale,
   v.centerY - (sy - v.screenCenterY) / v.scale)

/-! ## Physics helpers (src/utils/physics.js) -/

/-- Physics.gravitationalForce: returns 0 at r = 0, else G*M*m/r^2. -/
def Physics.gravitationalForce (G M m r : ℚ) : ℚ :=
  if r = 0 then 0 else G * M * m / (r * r)

/-! ## Two-ball collision response (ElasticCollisionScene.update in
src/scenes/PlanetaryMotionScene3D.ts)

The scene computes the unit normal (nx, ny) from the center distance,
decomposes both velocities into normal and tangential parts, applies the
1-D restitution formula along the normal only while the balls approach
(relative normal velocity v1n - v2n > 0), and recombines. -/

/-- Normal component of a velocity with respect to the unit normal (nx, ny). -/
def normalComp (nx ny vx vy : ℚ) : ℚ := vx * nx + vy * ny

/-- Tangential component: the tangent is (tx, ty) = (-ny, nx). -/
def tangComp (nx ny vx vy : ℚ) : ℚ := vx * (-ny) + vy * nx

/-- Velocity update of the collision branch: restitution along the normal,
tangential components kept, no-op unless the balls are approaching. -/
def collisionResponse (m1 m2 e nx ny v1x v1y v2x v2y : ℚ) : (ℚ × ℚ) × (ℚ × ℚ) :=
  let tx := -ny
  let ty := nx
  let v1n := v1x * nx + v1y * ny
  let v1t := v1x * tx + v1y * ty
  let v2n := v2x * nx + v2y * ny
  let v2t := v2x * tx + v2y * ty
  let vRelN := v1n - v2n
  if vRelN > 0 then
    let v1nNew := (m1 * v1n + m2 * v2n - m2 * e * (v1n - v2n)) / (m1 + m2)
    let v2nNew := (m1 * v1n + m2 * v2n + m1 * e * (v1n - v2n)) / (m1 + m2)
    ((v1nNew * nx + v1t * tx, v1nNew * ny + v1t * ty),
     (v2nNew * nx + v2t * tx, v2nNew * ny + v2t * ty))
  else
    ((v1x, v1y), (v2x, v2y))

/-! ## Engine (src/core/Engine.ts)

The engine state is generic over the scene type S; a scene update is a
function u taking the scene, fixedDeltaTime and physicsTime.  Times are
exact rationals; timestamps are in milliseconds (as supplied by
requestAnimationFrame), the accumulator in seconds, matching the
division by 1000 in the source. -/

/-- Per-frame clamp of Engine.loop: if dt > 0.25 then dt := 0.25.  Note
that the source clamps only from above. -/
def clampDt (dt : ℚ) : ℚ :=
  if dt > 1 / 4 then 1 / 4 else dt

/-- Clamp as the specification states it: clamp(x, 0, 0.25), written from
the spec sentence for comparison with clampDt. -/
def clampSpec (x : ℚ) : ℚ :=
  max 0 (min x (1 / 4))

/-- Engine state: the time-management fields of Engine.ts plus the current
scene (none when no scene is loaded). -/
structure Engine (S : Type) where
  running : Bool
  lastFrameTime : ℚ
  accumulatedTime : ℚ
  startTime : ℚ
  pauseStartTime : ℚ
  totalPausedTime : ℚ
  fixedDeltaTime : ℚ
  physicsTime : ℚ
  currentScene : Option S

/-- The elapsed time a call of Engine.loop feeds into the accumulator:
the raw frame delta in seconds, clamped (from above only) by clampDt. -/
def Engine.frameDt {S : Type} (timestamp : ℚ) (e : Engine S) : ℚ :=
  clampDt ((timestamp - e.lastFrameTime) / 1000)

/-- The while loop of Engine.loop: while fixedDeltaTime <= accumulatedTime,
update the scene at (fixedDeltaTime, physicsTime), advance physicsTime and
retire fixedDeltaTime from the accumulator.  The conjunct 0 < fdt records
that the engine always runs with fixedDeltaTime = 1/60 > 0; with a
non-positive step the source while loop would not terminate. -/
def drainAux {S : Type} (u : S → ℚ → ℚ → S) (fdt : ℚ) (acc pt : ℚ) (s : S) : ℚ × ℚ × S :=
  if h : 0 < fdt ∧ fdt ≤ acc then
    drainAux u fdt (acc - fdt) (pt + fdt) (u s fdt pt)
  else
    (acc, pt, s)
termination_by (⌊acc / fdt⌋).toNat
decreasing_by
  simp_wf
  obtain ⟨hf, hle⟩ := h
  have hne : fdt ≠ 0 := ne_of_gt hf
  have h1 : (acc - fdt) / fdt = acc / fdt - 1 := by
    rw [sub_div, div_self hne]
  have h2 : ⌊acc / fdt - (1 : ℚ)⌋ = ⌊acc / fdt⌋ - 1 := by
    simp
  have h3 : (1 : ℤ) ≤ ⌊acc / fdt⌋ := by
    rw [Int.le_floor]
    push_cast
    exact (one_le_div hf).mpr hle
  rw [h1, h2]
  omega

/-- One invocation of Engine.loop at the given timestamp: no-op unless
running; otherwise clamp the frame delta, advance the accumulator, and
drain it (calling the scene update) when a scene is loaded. -/
def Engine.loop {S : Type} (u : S → ℚ → ℚ → S) (timestamp : ℚ) (e : Engine S) : Engine S :=
  if e.running = false then e
  else
    let dt := Engine.frameDt timestamp e
    let e1 : Engine S :=
      { e with lastFrameTime := timestamp, accumulatedTime := e.accumulatedTime + dt }
    match e1.currentScene with
    | some s =>
      let r := drainAux u e1.fixedDeltaTime e1.accumulatedTime e1.physicsTime s
      { e1 with accumulatedTime := r.1, physicsTime := r.2.1, currentScene := some r.2.2 }
    | none => e1

/-- Engine.start: when not running, resume at the given wall-clock time,
folding a pending pause interval into totalPausedTime. -/
def Engine.start {S : Type} (now : ℚ) (e : Engine S) : Engine S :=
  if e.running then e
  else
    let e1 := { e with running := true, lastFrameTime := now }
    if 0 < e1.pauseStartTime then
      { e1 with totalPausedTime := e1.totalPausedTime + (now - e1.pauseStartTime),
                pauseStartTime := 0 }
    else
      { e1 with startTime := now }

/-- Engine.pause: when running, stop and record the pause start time. -/
def Engine.pause {S : Type} (now : ℚ) (e : Engine S) : Engine S :=
  if e.running then { e with running := false, pauseStartTime := now } else e

/-- Fold a sequence of animation-frame callbacks over the engine. -/
def runLoops {S : Type} (u : S → ℚ → ℚ → S) (tss : List ℚ) (e : Engine S) : Engine S :=
  tss.foldl (fun acc ts => Engine.loop u ts acc) e

/-- The scene obtained by n consecutive fixed-step updates starting at
physics time pt: the canonical form of what the drain loop does to the scene. -/
def stepsFrom {S : Type} (u : S → ℚ → ℚ → S) (fdt : ℚ) : ℕ → ℚ → S → S
  | 0, _, s => s
  | n + 1, pt, s => stepsFrom u fdt n (pt + fdt) (u s fdt pt)

/-- Timestamps (in milliseconds) that deliver the given per-callback
elapsed times (in seconds) to an engine whose lastFrameTime is t0. -/
def timestampsFrom (t0 : ℚ) : List ℚ → List ℚ
  | [] => []
  | d :: ds => (t0 + 1000 * d) :: timestampsFrom (t0 + 1000 * d) ds

/-! ## Helper lemmas: integrator field structure -/

theorem stageAdd_keys (s ks : StateObject) (h : ℚ) :
    (stageAdd s ks h).map Prod.fst = s.map Prod.fst := by
  induction s with
  | nil => rfl
  | cons p tl ih =>
    obtain ⟨a, v⟩ := p
    cases hm : ks.lookup a <;> simp [stageAdd, hm, ih]

theorem rk4Combine_keys (s k1 k2 k3 k4 : StateObject) (dt : ℚ) :
    (rk4Combine s k1 k2 k3 k4 dt).map Prod.fst = s.map Prod.fst := by
  induction s with
  | nil => rfl
  | cons p tl ih =>
    obtain ⟨a, v⟩ := p
    cases hm : k1.lookup a <;> simp [rk4Combine, hm, ih]

theorem lookup_stageAdd (s ks : StateObject) (h : ℚ) (k : String)
    (hk : ks.lookup k = none) : (stageAdd s ks h).lookup k = s.lookup k := by
  induction s with
  | nil => rfl
  | cons p tl ih =>
    obtain ⟨a, v⟩ := p
    by_cases hak : a = k
    · subst hak
      simp [stageAdd, hk, List.lookup]
    · have hba : (k == a) = false := beq_eq_false_iff_ne.mpr (Ne.symm hak)
      cases hm : ks.lookup a <;>
        simp [stageAdd, hm, List.lookup, hba, ih]

theorem lookup_rk4Combine (s k1 k2 k3 k4 : StateObject) (dt : ℚ) (k : String)
    (hk : k1.lookup k = none) :
    (rk4Combine s k1 k2 k3 k4 dt).lookup k = s.lookup k := by
  induction s with
  | nil => rfl
  | cons p tl ih =>
    obtain ⟨a, v⟩ := p
    by_cases hak : a = k
    · subst hak
      simp [rk4Combine, hk, List.lookup]
    · have hba : (k == a) = false := beq_eq_false_iff_ne.mpr (Ne.symm hak)
      cases hm : k1.lookup a <;>
        simp [rk4Combine, hm, List.lookup, hba, ih]

/-! ## Claim theorems: integrators -/

/-- C5: for every input state, time, timestep and derivative function, the
state returned by Integrator.euler and by Integrator.rk4 has exactly the
field names of the input state (in fact the same list of keys), whatever
fields the rates objects contain. -/
theorem integrator_field_set_stable (state : StateObject) (t dt : ℚ)
    (derivatives : StateObject → ℚ → StateObject) :
    (Integrator.euler state t dt derivatives).map Prod.fst = state.map Prod.fst ∧
    (Integrator.rk4 state t dt derivatives).map Prod.fst = state.map Prod.fst := by
  refine ⟨stageAdd_keys .., rk4Combine_keys ..⟩

/-- C10: when the derivative function never reports a rate for field k, both
Integrator.euler and Integrator.rk4 copy that field of the input state into
the result unchanged (so no NaN and no undefined is produced for it), and
the same holds at the three intermediate rk4 stages. -/
theorem integrator_passthrough (state : StateObject) (t dt : ℚ) (k : String)
    (derivatives : StateObject → ℚ → StateObject)
    (hf : ∀ s tcur, (derivatives s tcur).lookup k = none) :
    (Integrator.euler state t dt derivatives).lookup k = state.lookup k ∧
    (Integrator.rk4 state t dt derivatives).lookup k = state.lookup k ∧
    (rk4State2 state t dt derivatives).lookup k = state.lookup k ∧
    (rk4State3 state t dt derivatives).lookup k = state.lookup k ∧
    (rk4State4 state t dt derivatives).lookup k = state.lookup k := by
  refine ⟨lookup_stageAdd _ _ _ _ (hf ..), lookup_rk4Combine _ _ _ _ _ _ _ (hf ..),
    lookup_stageAdd _ _ _ _ (hf ..), lookup_stageAdd _ _ _ _ (hf ..),
    lookup_stageAdd _ _ _ _ (hf ..)⟩

/-- Field name used by concrete witness states. -/
def keyX : String := "x"

/-- Witness for C10 at a concrete state and a derivative function returning
an empty rates object. -/
theorem integrator_passthrough_witness :
    (Integrator.euler [(keyX, some 1)] 0 1 (fun _ _ => [])).lookup keyX
        = ([(keyX, some 1)] : StateObject).lookup keyX ∧
    (Integrator.rk4 [(keyX, some 1)] 0 1 (fun _ _ => [])).lookup keyX
        = ([(keyX, some 1)] : StateObject).lookup keyX ∧
    (rk4State2 [(keyX, some 1)] 0 1 (fun _ _ => [])).lookup keyX
        = ([(keyX, some 1)] : StateObject).lookup keyX ∧
    (rk4State3 [(keyX, some 1)] 0 1 (fun _ _ => [])).lookup keyX
        = ([(keyX, some 1)] : StateObject).lookup keyX ∧
    (rk4State4 [(keyX, some 1)] 0 1 (fun _ _ => [])).lookup keyX
        = ([(keyX, some 1)] : StateObject).lookup keyX :=
  integrator_passthrough [(keyX, some 1)] 0 1 keyX (fun _ _ => []) (fun _ _ => rfl)

/-- C6: semiImplicitEuler updates velocity first and then uses the new
velocity for the position update. -/
theorem semiImplicitEuler_velocity_first (pos vel t dt : ℚ)
    (accelerationFunc : ℚ → ℚ → ℚ → ℚ) :
    Integrator.semiImplicitEuler pos vel t dt accelerationFunc =
      { pos := pos + (vel + accelerationFunc pos vel t * dt) * dt,
        vel := vel + accelerationFunc pos vel t * dt } := rfl

/-! ## Claim theorems: viewport and gravitation -/

/-- C7: for a positive scale, screenToWorld inverts worldToScreen exactly
over rational arithmetic, vertical flip included. -/
theorem viewport_round_trip (v : Viewport) (x y : ℚ) (hs : 0 < v.scale) :
    v.screenToWorld (v.worldToScreen x y).1 (v.worldToScreen x y).2 = (x, y) := by
  have hne : v.scale ≠ 0 := ne_of_gt hs
  simp only [Viewport.worldToScreen, Viewport.screenToWorld, Prod.mk.injEq]
  constructor <;> field_simp <;> ring

/-- Concrete viewport for the C7 witness. -/
def witView : Viewport := { scale := 100, centerX := 2, centerY := 3,
                            screenCenterX := 400, screenCenterY := 300 }

/-- Witness for C7 at a concrete viewport and point. -/
theorem viewport_round_trip_witness :
    (0 : ℚ) < witView.scale ∧
    witView.screenToWorld (witView.worldToScreen 5 7).1 (witView.worldToScreen 5 7).2 = (5, 7) :=
  ⟨by norm_num [witView], viewport_round_trip witView 5 7 (by norm_num [witView])⟩

/-- C8: gravitationalForce is zero at r = 0 (the guarded singularity) and
equals G*M*m/r^2 at every nonzero r. -/
theorem gravitationalForce_guard (G M m : ℚ) :
    Physics.gravitationalForce G M m 0 = 0 ∧
    ∀ r : ℚ, r ≠ 0 → Physics.gravitationalForce G M m r = G * M * m / (r * r) := by
  constructor
  · simp [Physics.gravitationalForce]
  · intro r hr
    simp [Physics.gravitationalForce, hr]

/-- Witness for C8 at concrete masses and distances. -/
theorem gravitationalForce_guard_witness :
    Physics.gravitationalForce 2 3 5 0 = 0 ∧
    Physics.gravitationalForce 2 3 5 4 = 2 * 3 * 5 / (4 * 4) :=
  ⟨(gravitationalForce_guard 2 3 5).1, (gravitationalForce_guard 2 3 5).2 4 (by norm_num)⟩

/-! ## Helper lemmas: collision recombination under a unit normal -/

theorem normalComp_recombine (nx ny a b : ℚ) (hn : nx ^ 2 + ny ^ 2 = 1) :
    normalComp nx ny (a * nx + b * -ny) (a * ny + b * nx) = a := by
  simp only [normalComp]
  linear_combination a * hn

theorem tangComp_recombine (nx ny a b : ℚ) (hn : nx ^ 2 + ny ^ 2 = 1) :
    tangComp nx ny (a * nx + b * -ny) (a * ny + b * nx) = b := by
  simp only [tangComp]
  linear_combination b * hn


/-! ## Claim theorem: collision conservation laws -/

/-- C9: in the collision response (balls approaching, unit normal,
positive masses): normal momentum is conserved for every restitution e;
for e = 1 the normal kinetic energy is conserved; for e = 0 it strictly
decreases; tangential velocity components are unchanged. -/
theorem collision_conservation (m1 m2 e nx ny v1x v1y v2x v2y : ℚ)
    (hm1 : 0 < m1) (hm2 : 0 < m2) (hn : nx ^ 2 + ny ^ 2 = 1)
    (happ : normalComp nx ny v2x v2y < normalComp nx ny v1x v1y) :
    m1 * normalComp nx ny (collisionResponse m1 m2 e nx ny v1x v1y v2x v2y).1.1
        (collisionResponse m1 m2 e nx ny v1x v1y v2x v2y).1.2 +
      m2 * normalComp nx ny (collisionResponse m1 m2 e nx ny v1x v1y v2x v2y).2.1
        (collisionResponse m1 m2 e nx ny v1x v1y v2x v2y).2.2 =
      m1 * normalComp nx ny v1x v1y + m2 * normalComp nx ny v2x v2y ∧
    (e = 1 →
      1 / 2 * m1 * normalComp nx ny (collisionResponse m1 m2 e nx ny v1x v1y v2x v2y).1.1
          (collisionResponse m1 m2 e nx ny v1x v1y v2x v2y).1.2 ^ 2 +
        1 / 2 * m2 * normalComp nx ny (collisionResponse m1 m2 e nx ny v1x v1y v2x v2y).2.1
          (collisionResponse m1 m2 e nx ny v1x v1y v2x v2y).2.2 ^ 2 =
        1 / 2 * m1 * normalComp nx ny v1x v1y ^ 2 + 1 / 2 * m2 * normalComp nx ny v2x v2y ^ 2) ∧
    (e = 0 →
      1 / 2 * m1 * normalComp nx ny (collisionResponse m1 m2 e nx ny v1x v1y v2x v2y).1.1
          (collisionResponse m1 m2 e nx ny v1x v1y v2x v2y).1.2 ^ 2 +
        1 / 2 * m2 * normalComp nx ny (collisionResponse m1 m2 e nx ny v1x v1y v2x v2y).2.1
          (collisionResponse m1 m2 e nx ny v1x v1y v2x v2y).2.2 ^ 2 <
        1 / 2 * m1 * normalComp nx ny v1x v1y ^ 2 + 1 / 2 * m2 * normalComp nx ny v2x v2y ^ 2) ∧
    tangComp nx ny (collisionResponse m1 m2 e nx ny v1x v1y v2x v2y).1.1
        (collisionResponse m1 m2 e nx ny v1x v1y v2x v2y).1.2 =
      tangComp nx ny v1x v1y ∧
    tangComp nx ny (collisionResponse m1 m2 e nx ny v1x v1y v2x v2y).2.1
        (collisionResponse m1 m2 e nx ny v1x v1y v2x v2y).2.2 =
      tangComp nx ny v2x v2y := by
  have hms : m1 + m2 ≠ 0 := by positivity
  have hcond : v1x * nx + v1y * ny - (v2x * nx + v2y * ny) > 0 := by
    have h1 := sub_pos.mpr happ
    simpa [normalComp] using h1
  have hw : collisionResponse m1 m2 e nx ny v1x v1y v2x v2y =
      (((m1 * (v1x * nx + v1y * ny) + m2 * (v2x * nx + v2y * ny)
           - m2 * e * ((v1x * nx + v1y * ny) - (v2x * nx + v2y * ny))) / (m1 + m2) * nx
          + (v1x * -ny + v1y * nx) * -ny,
        (m1 * (v1x * nx + v1y * ny) + m2 * (v2x * nx + v2y * ny)
           - m2 * e * ((v1x * nx + v1y * ny) - (v2x * nx + v2y * ny))) / (m1 + m2) * ny
          + (v1x * -ny + v1y * nx) * nx),
       ((m1 * (v1x * nx + v1y * ny) + m2 * (v2x * nx + v2y * ny)
           + m1 * e * ((v1x * nx + v1y * ny) - (v2x * nx + v2y * ny))) / (m1 + m2) * nx
          + (v2x * -ny + v2y * nx) * -ny,
        (m1 * (v1x * nx + v1y * ny) + m2 * (v2x * nx + v2y * ny)
           + m1 * e * ((v1x * nx + v1y * ny) - (v2x * nx + v2y * ny))) / (m1 + m2) * ny
          + (v2x * -ny + v2y * nx) * nx)) := by
    simp only [collisionResponse]
    rw [if_pos hcond]
  rw [hw]
  simp only [normalComp_recombine _ _ _ _ hn, tangComp_recombine _ _ _ _ hn]
  refine ⟨?_, ?_, ?_, ?_, ?_⟩
  · simp only [normalComp]
    field_simp
    ring
  · intro he
    subst he
    simp only [normalComp]
    field_simp
    ring
  · intro he
    subst he
    simp only [normalComp] at *
    have hd : 1 / 2 * m1 * (v1x * nx + v1y * ny) ^ 2 + 1 / 2 * m2 * (v2x * nx + v2y * ny) ^ 2
        - (1 / 2 * m1 * ((m1 * (v1x * nx + v1y * ny) + m2 * (v2x * nx + v2y * ny)
             - m2 * 0 * ((v1x * nx + v1y * ny) - (v2x * nx + v2y * ny))) / (m1 + m2)) ^ 2
           + 1 / 2 * m2 * ((m1 * (v1x * nx + v1y * ny) + m2 * (v2x * nx + v2y * ny)
             + m1 * 0 * ((v1x * nx + v1y * ny) - (v2x * nx + v2y * ny))) / (m1 + m2)) ^ 2) =
        m1 * m2 * ((v1x * nx + v1y * ny) - (v2x * nx + v2y * ny)) ^ 2 / (2 * (m1 + m2)) := by
      field_simp
      ring
    have hpos : 0 < m1 * m2 * ((v1x * nx + v1y * ny) - (v2x * nx + v2y * ny)) ^ 2
        / (2 * (m1 + m2)) := by
      apply div_pos
      · exact mul_pos (mul_pos hm1 hm2) (pow_pos hcond 2)
      · linarith
    linarith
  · simp only [tangComp]
  · simp only [tangComp]

/-- Witness for C9 at concrete masses, normal (3/5, 4/5) and velocities. -/
theorem collision_conservation_witness :
    (0 : ℚ) < 1 ∧ ((3 : ℚ) / 5) ^ 2 + ((4 : ℚ) / 5) ^ 2 = 1 ∧
    normalComp (3 / 5) (4 / 5) 0 0 < normalComp (3 / 5) (4 / 5) 1 0 ∧
    1 * normalComp (3 / 5) (4 / 5)
        (collisionResponse 1 1 (1 / 2) (3 / 5) (4 / 5) 1 0 0 0).1.1
        (collisionResponse 1 1 (1 / 2) (3 / 5) (4 / 5) 1 0 0 0).1.2 +
      1 * normalComp (3 / 5) (4 / 5)
        (collisionResponse 1 1 (1 / 2) (3 / 5) (4 / 5) 1 0 0 0).2.1
        (collisionResponse 1 1 (1 / 2) (3 / 5) (4 / 5) 1 0 0 0).2.2 =
      1 * normalComp (3 / 5) (4 / 5) 1 0 + 1 * normalComp (3 / 5) (4 / 5) 0 0 :=
  ⟨by norm_num, by norm_num,
   by norm_num [normalComp],
   (collision_conservation 1 1 (1 / 2) (3 / 5) (4 / 5) 1 0 0 0
      (by norm_num) (by norm_num) (by norm_num) (by norm_num [normalComp])).1⟩

/-! ## Helper lemmas: the fixed-timestep accumulator -/

theorem clampDt_nonneg (x : ℚ) (hx : 0 ≤ x) : 0 ≤ clampDt x := by
  rw [clampDt]
  split
  · norm_num
  · exact hx

theorem drainAux_spec {S : Type} (u : S → ℚ → ℚ → S) (fdt : ℚ) (hf : 0 < fdt) :
    ∀ (n : ℕ) (acc pt : ℚ) (s : S), 0 ≤ acc → (⌊acc / fdt⌋).toNat = n →
      drainAux u fdt acc pt s =
        (acc - fdt * (n : ℚ), pt + fdt * (n : ℚ), stepsFrom u fdt n pt s) := by
  intro n
  induction n with
  | zero =>
    intro acc pt s hacc hn
    have hlt : acc < fdt := by
      by_contra hge
      push_neg at hge
      have h1 : (1 : ℤ) ≤ ⌊acc / fdt⌋ := by
        rw [Int.le_floor]
        push_cast
        exact (one_le_div hf).mpr hge
      omega
    rw [drainAux, dif_neg (fun hc => (not_le.mpr hlt) hc.2)]
    simp [stepsFrom]
  | succ n ih =>
    intro acc pt s hacc hn
    have hfl : ⌊acc / fdt⌋ = (n : ℤ) + 1 := by omega
    have h1 : ((n : ℚ) + 1) ≤ acc / fdt := by
      have h2 : ((n : ℤ) + 1) ≤ ⌊acc / fdt⌋ := le_of_eq hfl.symm
      have h3 := Int.le_floor.mp h2
      push_cast at h3
      exact h3
    have hge : fdt ≤ acc := by
      have hn0 : (0 : ℚ) ≤ (n : ℚ) := Nat.cast_nonneg n
      have h4 : (1 : ℚ) ≤ acc / fdt := by linarith
      exact (one_le_div hf).mp h4
    rw [drainAux, dif_pos ⟨hf, hge⟩]
    have hacc' : 0 ≤ acc - fdt := sub_nonneg.mpr hge
    have hfl' : (⌊(acc - fdt) / fdt⌋).toNat = n := by
      have h5 : (acc - fdt) / fdt = acc / fdt - 1 := by
        rw [sub_div, div_self (ne_of_gt hf)]
      have h6 : ⌊acc / fdt - (1 : ℚ)⌋ = ⌊acc / fdt⌋ - 1 := by simp
      rw [h5, h6]
      omega
    rw [ih (acc - fdt) (pt + fdt) (u s fdt pt) hacc' hfl']
    simp only [Prod.mk.injEq]
    refine ⟨by push_cast; ring, by push_cast; ring, rfl⟩

theorem residual_bounds (fdt acc : ℚ) (hf : 0 < fdt) (hacc : 0 ≤ acc) :
    0 ≤ acc - fdt * ((⌊acc / fdt⌋).toNat : ℚ) ∧
      acc - fdt * ((⌊acc / fdt⌋).toNat : ℚ) < fdt := by
  have h0 : (0 : ℤ) ≤ ⌊acc / fdt⌋ := Int.floor_nonneg.mpr (div_nonneg hacc hf.le)
  have hcast : (((⌊acc / fdt⌋).toNat : ℕ) : ℚ) = ((⌊acc / fdt⌋ : ℤ) : ℚ) := by
    exact_mod_cast congrArg (Int.cast : ℤ → ℚ) (Int.toNat_of_nonneg h0)
  have h2 : fdt * (acc / fdt) = acc := by field_simp
  constructor
  · have hle : ((⌊acc / fdt⌋ : ℤ) : ℚ) ≤ acc / fdt := Int.floor_le _
    rw [hcast]
    nlinarith [mul_le_mul_of_nonneg_left hle hf.le]
  · have hlt : acc / fdt < ((⌊acc / fdt⌋ : ℤ) : ℚ) + 1 := Int.lt_floor_add_one _
    rw [hcast]
    nlinarith [mul_lt_mul_of_pos_left hlt hf]

theorem stepsFrom_add {S : Type} (u : S → ℚ → ℚ → S) (fdt : ℚ) (m1 m2 : ℕ) :
    ∀ (pt : ℚ) (s : S), stepsFrom u fdt (m1 + m2) pt s =
      stepsFrom u fdt m2 (pt + fdt * (m1 : ℚ)) (stepsFrom u fdt m1 pt s) := by
  induction m1 with
  | zero =>
    intro pt s
    simp [stepsFrom]
  | succ n ih =>
    intro pt s
    have h1 : n + 1 + m2 = (n + m2) + 1 := by omega
    rw [h1]
    show stepsFrom u fdt (n + m2) (pt + fdt) (u s fdt pt) = _
    rw [ih]
    push_cast
    rw [show pt + fdt + fdt * (n : ℚ) = pt + fdt * ((n : ℚ) + 1) by ring]
    rfl

theorem loop_step {S : Type} (u : S → ℚ → ℚ → S) (fdt st pst tpt t0 acc pt d : ℚ)
    (s : S) (hf : 0 < fdt) (hacc : 0 ≤ acc) (hd1 : 0 ≤ d) (hd2 : d ≤ 1 / 4) :
    Engine.loop u (t0 + 1000 * d) ⟨true, t0, acc, st, pst, tpt, fdt, pt, some s⟩ =
      ⟨true, t0 + 1000 * d,
        (acc + d) - fdt * (((⌊(acc + d) / fdt⌋).toNat : ℕ) : ℚ), st, pst, tpt, fdt,
        pt + fdt * (((⌊(acc + d) / fdt⌋).toNat : ℕ) : ℚ),
        some (stepsFrom u fdt (⌊(acc + d) / fdt⌋).toNat pt s)⟩ := by
  have hraw : (t0 + 1000 * d - t0) / 1000 = d := by
    rw [show t0 + 1000 * d - t0 = 1000 * d by ring]
    rw [mul_div_cancel_left₀ d (by norm_num : (1000 : ℚ) ≠ 0)]
  have hclamp : clampDt d = d := by
    rw [clampDt, if_neg (not_lt.mpr hd2)]
  simp only [Engine.loop, Engine.frameDt]
  norm_num [hraw, hclamp]
  rw [drainAux_spec u fdt hf ((⌊(acc + d) / fdt⌋).toNat) (acc + d) pt s (by linarith) rfl]
  exact ⟨rfl, rfl, rfl⟩

theorem runLoops_spec {S : Type} (u : S → ℚ → ℚ → S) (fdt st pst tpt : ℚ) (hf : 0 < fdt) :
    ∀ (ds : List ℚ), (∀ d ∈ ds, 0 ≤ d ∧ d ≤ 1 / 4) →
    ∀ (t0 acc pt : ℚ) (s : S), 0 ≤ acc → acc < fdt →
      runLoops u (timestampsFrom t0 ds)
          ⟨true, t0, acc, st, pst, tpt, fdt, pt, some s⟩ =
        ⟨true, t0 + 1000 * ds.sum,
          (acc + ds.sum) - fdt * (((⌊(acc + ds.sum) / fdt⌋).toNat : ℕ) : ℚ),
          st, pst, tpt, fdt,
          pt + fdt * (((⌊(acc + ds.sum) / fdt⌋).toNat : ℕ) : ℚ),
          some (stepsFrom u fdt (⌊(acc + ds.sum) / fdt⌋).toNat pt s)⟩ := by
  intro ds
  induction ds with
  | nil =>
    intro hbound t0 acc pt s hacc hlt
    have hfl : ⌊acc / fdt⌋ = 0 := by
      have h1 : (0 : ℤ) ≤ ⌊acc / fdt⌋ := Int.floor_nonneg.mpr (div_nonneg hacc hf.le)
      have h2 : ⌊acc / fdt⌋ < 1 := Int.floor_lt.mpr (by push_cast; exact (div_lt_one hf).mpr hlt)
      omega
    simp [runLoops, timestampsFrom, hfl, stepsFrom, Engine.mk.injEq]
  | cons d ds ih =>
    intro hbound t0 acc pt s hacc hlt
    have hd := hbound d (List.mem_cons_self d ds)
    have hrest : ∀ x ∈ ds, 0 ≤ x ∧ x ≤ 1 / 4 :=
      fun x hx => hbound x (List.mem_cons_of_mem d hx)
    have hsum : 0 ≤ ds.sum := List.sum_nonneg (fun x hx => (hrest x hx).1)
    have hstep := loop_step u fdt st pst tpt t0 acc pt d s hf hacc hd.1 hd.2
    have h0ad : (0 : ℚ) ≤ acc + d := by linarith
    set m1 : ℕ := (⌊(acc + d) / fdt⌋).toNat with hm1
    have hres := residual_bounds fdt (acc + d) hf h0ad
    rw [← hm1] at hres
    rw [show timestampsFrom t0 (d :: ds) = (t0 + 1000 * d) :: timestampsFrom (t0 + 1000 * d) ds
      from rfl]
    rw [show runLoops u ((t0 + 1000 * d) :: timestampsFrom (t0 + 1000 * d) ds)
        ⟨true, t0, acc, st, pst, tpt, fdt, pt, some s⟩ =
      runLoops u (timestampsFrom (t0 + 1000 * d) ds)
        (Engine.loop u (t0 + 1000 * d) ⟨true, t0, acc, st, pst, tpt, fdt, pt, some s⟩) from rfl]
    rw [hstep]
    rw [ih hrest (t0 + 1000 * d) ((acc + d) - fdt * ((m1 : ℕ) : ℚ)) (pt + fdt * ((m1 : ℕ) : ℚ))
      (stepsFrom u fdt m1 pt s) hres.1 hres.2]
    have hm1nn : (0 : ℤ) ≤ ⌊(acc + d) / fdt⌋ :=
      Int.floor_nonneg.mpr (div_nonneg h0ad hf.le)
    have hcast1 : ((m1 : ℕ) : ℚ) = ((⌊(acc + d) / fdt⌋ : ℤ) : ℚ) := by
      rw [hm1]
      exact_mod_cast congrArg (Int.cast : ℤ → ℚ) (Int.toNat_of_nonneg hm1nn)
    have hdiv : (acc + d - fdt * ((m1 : ℕ) : ℚ) + ds.sum) / fdt =
        (acc + d + ds.sum) / fdt - ((⌊(acc + d) / fdt⌋ : ℤ) : ℚ) := by
      rw [hcast1]
      field_simp
      ring
    have hfl2 : ⌊(acc + d - fdt * ((m1 : ℕ) : ℚ) + ds.sum) / fdt⌋ =
        ⌊(acc + d + ds.sum) / fdt⌋ - ⌊(acc + d) / fdt⌋ := by
      rw [hdiv, Int.floor_sub_int]
    have h2nn : (0 : ℤ) ≤ ⌊(acc + d - fdt * ((m1 : ℕ) : ℚ) + ds.sum) / fdt⌋ :=
      Int.floor_nonneg.mpr (div_nonneg (by linarith [hres.1, hsum]) hf.le)
    have hM : m1 + (⌊(acc + d - fdt * ((m1 : ℕ) : ℚ) + ds.sum) / fdt⌋).toNat =
        (⌊(acc + d + ds.sum) / fdt⌋).toNat := by
      omega
    rw [List.sum_cons]
    rw [show acc + (d + ds.sum) = acc + d + ds.sum from by ring]
    rw [← hM, stepsFrom_add]
    push_cast
    simp only [Engine.mk.injEq]
    refine ⟨trivial, by ring, by ring, trivial, trivial, trivial, trivial, by ring, trivial⟩

/-! ## Claim theorems: engine time management -/

/-- C1: frame-rate independence.  With a positive fixed timestep, a loaded
scene and zeroed accumulator/physics time, feeding Engine.loop any
sequence of per-callback elapsed times ds (each in [0, 1/4] s, so the
clamp never fires) leaves the engine in a state determined by the total
T = ds.sum alone: the scene receives exactly ⌊T / fdt⌋ fixed updates,
physicsTime = fdt * ⌊T / fdt⌋, accumulatedTime = T - fdt * ⌊T / fdt⌋.
Hence one 1 s callback and sixty 1/60 s callbacks (same sum) yield
identical final engine states. -/
theorem engine_frame_rate_independence {S : Type} (u : S → ℚ → ℚ → S)
    (fdt t0 st pst tpt : ℚ) (s : S) (ds : List ℚ) (hf : 0 < fdt)
    (hds : ∀ d ∈ ds, 0 ≤ d ∧ d ≤ 1 / 4) :
    runLoops u (timestampsFrom t0 ds) ⟨true, t0, 0, st, pst, tpt, fdt, 0, some s⟩ =
      ⟨true, t0 + 1000 * ds.sum,
        ds.sum - fdt * (((⌊ds.sum / fdt⌋).toNat : ℕ) : ℚ), st, pst, tpt, fdt,
        fdt * (((⌊ds.sum / fdt⌋).toNat : ℕ) : ℚ),
        some (stepsFrom u fdt (⌊ds.sum / fdt⌋).toNat 0 s)⟩ := by
  have h := runLoops_spec u fdt st pst tpt hf ds hds t0 0 0 s le_rfl hf
  simpa using h

/-- Witness for C1: three callbacks of 1/4 s each against a fixed timestep
of 1/3 s. -/
theorem engine_frame_rate_independence_witness :
    (0 : ℚ) < 1 / 3 ∧ (∀ d ∈ [(1 : ℚ) / 4, 1 / 4, 1 / 4], 0 ≤ d ∧ d ≤ 1 / 4) ∧
    runLoops (fun (s : Unit) _ _ => s) (timestampsFrom 0 [(1 : ℚ) / 4, 1 / 4, 1 / 4])
        ⟨true, 0, 0, 0, 0, 0, 1 / 3, 0, some ()⟩ =
      ⟨true, 0 + 1000 * ([(1 : ℚ) / 4, 1 / 4, 1 / 4]).sum,
        ([(1 : ℚ) / 4, 1 / 4, 1 / 4]).sum
          - 1 / 3 * (((⌊([(1 : ℚ) / 4, 1 / 4, 1 / 4]).sum / (1 / 3)⌋).toNat : ℕ) : ℚ),
        0, 0, 0, 1 / 3,
        1 / 3 * (((⌊([(1 : ℚ) / 4, 1 / 4, 1 / 4]).sum / (1 / 3)⌋).toNat : ℕ) : ℚ),
        some (stepsFrom (fun (s : Unit) _ _ => s) (1 / 3)
          (⌊([(1 : ℚ) / 4, 1 / 4, 1 / 4]).sum / (1 / 3)⌋).toNat 0 ())⟩ :=
  ⟨by norm_num, by intro d hd; fin_cases hd <;> norm_num,
   engine_frame_rate_independence (fun (s : Unit) _ _ => s) (1 / 3) 0 0 0 0 () _
     (by norm_num) (by intro d hd; fin_cases hd <;> norm_num)⟩

/-- C3: after the drain loop of an Engine.loop invocation with a running
engine, a loaded scene, a positive fixed timestep, a nonnegative
accumulator and a non-decreasing timestamp, the interpolation weight
alpha = accumulatedTime / fixedDeltaTime satisfies 0 <= alpha < 1. -/
theorem loop_alpha_bounds {S : Type} (u : S → ℚ → ℚ → S) (e : Engine S) (s : S) (ts : ℚ)
    (hrun : e.running = true) (hscene : e.currentScene = some s)
    (hf : 0 < e.fixedDeltaTime) (hacc : 0 ≤ e.accumulatedTime)
    (hts : e.lastFrameTime ≤ ts) :
    0 ≤ (Engine.loop u ts e).accumulatedTime / (Engine.loop u ts e).fixedDeltaTime ∧
      (Engine.loop u ts e).accumulatedTime / (Engine.loop u ts e).fixedDeltaTime < 1 := by
  obtain ⟨rn, lt, acc, st, pst, tpt, fdt, pt, sc⟩ := e
  dsimp only at hrun hscene hf hacc hts
  subst hrun
  subst hscene
  have hdt : 0 ≤ clampDt ((ts - lt) / 1000) :=
    clampDt_nonneg _ (div_nonneg (sub_nonneg.mpr hts) (by norm_num))
  set d := clampDt ((ts - lt) / 1000) with hd
  have hstep : Engine.loop u ts ⟨true, lt, acc, st, pst, tpt, fdt, pt, some s⟩ =
      ⟨true, ts, (acc + d) - fdt * (((⌊(acc + d) / fdt⌋).toNat : ℕ) : ℚ), st, pst, tpt, fdt,
        pt + fdt * (((⌊(acc + d) / fdt⌋).toNat : ℕ) : ℚ),
        some (stepsFrom u fdt (⌊(acc + d) / fdt⌋).toNat pt s)⟩ := by
    simp only [Engine.loop, Engine.frameDt]
    norm_num [← hd]
    rw [drainAux_spec u fdt hf _ (acc + d) pt s (by linarith) rfl]
    exact ⟨rfl, rfl, rfl⟩
  rw [hstep]
  dsimp only
  have hres := residual_bounds fdt (acc + d) hf (by linarith)
  exact ⟨div_nonneg hres.1 hf.le, (div_lt_one hf).mpr hres.2⟩

/-- Concrete engine for the C3 witness. -/
def witEngineC3 : Engine Unit := ⟨true, 0, 0, 0, 0, 0, 1 / 60, 0, some ()⟩

/-- Witness for C3 at a concrete engine and timestamp. -/
theorem loop_alpha_bounds_witness :
    witEngineC3.running = true ∧ (0 : ℚ) < witEngineC3.fixedDeltaTime ∧
    (0 ≤ (Engine.loop (fun (s : Unit) _ _ => s) 500 witEngineC3).accumulatedTime /
        (Engine.loop (fun (s : Unit) _ _ => s) 500 witEngineC3).fixedDeltaTime ∧
      (Engine.loop (fun (s : Unit) _ _ => s) 500 witEngineC3).accumulatedTime /
        (Engine.loop (fun (s : Unit) _ _ => s) 500 witEngineC3).fixedDeltaTime < 1) :=
  ⟨rfl, by norm_num [witEngineC3],
   loop_alpha_bounds (fun (s : Unit) _ _ => s) witEngineC3 () 500 rfl rfl
     (by norm_num [witEngineC3]) (by norm_num [witEngineC3]) (by norm_num [witEngineC3])⟩

theorem loop_not_running {S : Type} (u : S → ℚ → ℚ → S) (ts : ℚ) (e : Engine S)
    (h : e.running = false) : Engine.loop u ts e = e := by
  rw [Engine.loop, if_pos h]

theorem runLoops_not_running {S : Type} (u : S → ℚ → ℚ → S) (tss : List ℚ) (e : Engine S)
    (h : e.running = false) : runLoops u tss e = e := by
  induction tss with
  | nil => rfl
  | cons t ts ih =>
    rw [show runLoops u (t :: ts) e = runLoops u ts (Engine.loop u t e) from rfl]
    rw [loop_not_running u t e h]
    exact ih

theorem pause_running_false {S : Type} (now : ℚ) (e : Engine S) :
    (Engine.pause now e).running = false := by
  rw [Engine.pause]
  split
  · rfl
  · simp_all

theorem pause_physicsTime {S : Type} (now : ℚ) (e : Engine S) :
    (Engine.pause now e).physicsTime = e.physicsTime := by
  rw [Engine.pause]
  split <;> rfl

theorem start_physicsTime {S : Type} (now : ℚ) (e : Engine S) :
    (Engine.start now e).physicsTime = e.physicsTime := by
  rw [Engine.start]
  split
  · rfl
  · dsimp only
    split <;> rfl

/-- C4: pausing, waiting for an arbitrary number of animation callbacks at
arbitrary timestamps, and restarting leaves physicsTime exactly at its
value when pause was called; wall time spent paused never reaches
simulated time. -/
theorem pause_start_preserves_physicsTime {S : Type} (u : S → ℚ → ℚ → S)
    (e : Engine S) (now1 : ℚ) (tss : List ℚ) (now2 : ℚ) :
    (Engine.start now2 (runLoops u tss (Engine.pause now1 e))).physicsTime = e.physicsTime := by
  rw [start_physicsTime, runLoops_not_running u tss _ (pause_running_false now1 e),
    pause_physicsTime]

/-- Concrete running engine whose lastFrameTime is ahead of the next
timestamp, exhibiting the missing lower clamp (C2). -/
def cexEngine : Engine Unit := ⟨true, 1000, 0, 0, 0, 0, 1 / 60, 0, none⟩

/-- C2 counterexample: at timestamp 0 with lastFrameTime = 1000 ms the
loop feeds dt = -1 s into the accumulator, not clamp(-1, 0, 0.25) = 0,
and the accumulator strictly decreases. -/
theorem frameDt_clamp_counterexample :
    Engine.frameDt 0 cexEngine = -1 ∧
    clampSpec ((0 - cexEngine.lastFrameTime) / 1000) = 0 ∧
    Engine.frameDt 0 cexEngine ≠ clampSpec ((0 - cexEngine.lastFrameTime) / 1000) ∧
    (Engine.loop (fun (s : Unit) _ _ => s) 0 cexEngine).accumulatedTime <
      cexEngine.accumulatedTime := by
  refine ⟨?_, ?_, ?_, ?_⟩ <;>
    norm_num [Engine.frameDt, Engine.loop, clampDt, clampSpec, cexEngine]

/-- C2 amended: the elapsed time Engine.loop feeds into the accumulator is
min(now - lastFrameTime, 0.25 s): spikes above 0.25 s are clamped, but a
negative difference is passed through unchanged (there is no lower clamp),
so the accumulator can decrease when now < lastFrameTime. -/
theorem frameDt_amended {S : Type} (u : S → ℚ → ℚ → S) (ts : ℚ) (e : Engine S) :
    Engine.frameDt ts e = min ((ts - e.lastFrameTime) / 1000) (1 / 4) ∧
    ((ts - e.lastFrameTime) / 1000 < 0 →
      Engine.frameDt ts e = (ts - e.lastFrameTime) / 1000) ∧
    (e.running = true → e.currentScene = none →
      (Engine.loop u ts e).accumulatedTime = e.accumulatedTime + Engine.frameDt ts e) := by
  obtain ⟨rn, lt, acc, st, pst, tpt, fdt, pt, sc⟩ := e
  refine ⟨?_, ?_, ?_⟩
  · dsimp only [Engine.frameDt]
    rw [clampDt]
    split
    · rename_i hgt
      rw [min_eq_right (le_of_lt hgt)]
    · rename_i hle
      rw [min_eq_left (not_lt.mp hle)]
  · intro hneg
    dsimp only [Engine.frameDt]
    rw [clampDt, if_neg (by intro hc; linarith)]
  · intro hrun hsc
    dsimp only at hrun hsc
    subst hrun
    subst hsc
    simp only [Engine.loop, Engine.frameDt]
    norm_num

/-- Witness for the amended C2 at the concrete counterexample engine. -/
theorem frameDt_amended_witness :
    Engine.frameDt 0 cexEngine = (0 - cexEngine.lastFrameTime) / 1000 ∧
    (Engine.loop (fun (s : Unit) _ _ => s) 0 cexEngine).accumulatedTime =
      cexEngine.accumulatedTime + Engine.frameDt 0 cexEngine :=
  ⟨(frameDt_amended (fun (s : Unit) _ _ => s) 0 cexEngine).2.1 (by norm_num [cexEngine]),
   (frameDt_amended (fun (s : Unit) _ _ => s) 0 cexEngine).2.2 rfl rfl⟩
